import Mathlib

/-!
Verification development for the py_workflow repository.

Part 1 embeds the client code (src/client/src/services/api.js,
src/client/src/pages/Dashboard.jsx, and the Workflows page) as Lean
definitions.  Part 2 models the server-side execution engine, checkpoint
store and interaction broker; the server implementation files are not part
of the repository snapshot, so those definitions are modelled from the
specification text, as marked in their doc comments.
-/

/-- HTTP methods used by the axios client. -/
inductive Method where
  | get
  | post
  | put
  | delete
deriving DecidableEq, Repr

/-- Minimal JSON value model for request bodies and parameter values. -/
inductive JVal where
  | nul
  | str (s : String)
  | num (n : Int)
  | obj (fields : List (String × JVal))

/-- A single HTTP request issued through the axios instance. -/
structure Request where
  method : Method
  url : String
  params : List (String × JVal)
  body : Option JVal

/-- The axios instance in api.js is created with baseURL /api/v1; every
request URL is the base URL followed by the path given at the call site. -/
def baseURL : String := "/api/v1"

namespace api

/-- api.get(path, \x7b params \x7d) from api.js. -/
def get (path : String) (params : List (String × JVal)) : Request :=
  { method := Method.get, url := baseURL ++ path, params := params, body := none }

/-- api.post(path, data, \x7b params \x7d) from api.js. -/
def post (path : String) (body : Option JVal) (params : List (String × JVal)) : Request :=
  { method := Method.post, url := baseURL ++ path, params := params, body := body }

/-- api.put(path, data) from api.js. -/
def put (path : String) (body : Option JVal) : Request :=
  { method := Method.put, url := baseURL ++ path, params := [], body := body }

/-- api.delete(path) from api.js. -/
def delete (path : String) : Request :=
  { method := Method.delete, url := baseURL ++ path, params := [], body := none }

end api

namespace workflowsApi

/-- workflowsApi.getAll from api.js. -/
def getAll (params : List (String × JVal)) : Request := api.get "/workflows/" params

/-- workflowsApi.delete from api.js. -/
def delete (id : String) : Request := api.delete ("/workflows/" ++ id)

end workflowsApi

namespace executionsApi

/-- executionsApi.create from api.js. -/
def create (data : JVal) : Request := api.post "/executions/" (some data) []

/-- executionsApi.start from api.js. -/
def start (id : String) : Request := api.post ("/executions/" ++ id ++ "/start") none []

/-- executionsApi.getAll from api.js. -/
def getAll (params : List (String × JVal)) : Request := api.get "/executions/" params

/-- executionsApi.getById from api.js. -/
def getById (id : String) : Request := api.get ("/executions/" ++ id) []

/-- executionsApi.cancel from api.js. -/
def cancel (id : String) : Request := api.post ("/executions/" ++ id ++ "/cancel") none []

/-- executionsApi.getInteractions from api.js. -/
def getInteractions (id : String) : Request :=
  api.get ("/executions/" ++ id ++ "/interactions") []

/-- executionsApi.respondToInteraction from api.js: posts the body
\x7b response: payload \x7d to the respond endpoint of the interaction. -/
def respondToInteraction (executionId interactionId : String) (response : JVal) : Request :=
  api.post ("/executions/" ++ executionId ++ "/interactions/" ++ interactionId ++ "/respond")
    (some (JVal.obj [("response", response)])) []

/-- executionsApi.getLogs from api.js. -/
def getLogs (id : String) : Request := api.get ("/executions/" ++ id ++ "/logs") []

/-- executionsApi.getStatus from api.js. -/
def getStatus (id : String) : Request := api.get ("/executions/" ++ id ++ "/status") []

end executionsApi

namespace agentsApi

/-- agentsApi.getAll from api.js. -/
def getAll (params : List (String × JVal)) : Request := api.get "/agents/" params

end agentsApi

namespace toolsApi

/-- toolsApi.getAll from api.js. -/
def getAll : Request := api.get "/tools/" []

end toolsApi

namespace healthApi

/-- healthApi.checkDetailedHealth from api.js. -/
def checkDetailedHealth : Request := api.get "/health/detailed" []

end healthApi

/-- Member names of the executionsApi object in api.js, in source order. -/
def executionsApiNames : List String :=
  ["create", "start", "getAll", "getById", "cancel", "getInteractions",
   "respondToInteraction", "getLogs", "getStatus"]

/-- The seven execution-level operations the specification exposes to the
presentation layer. -/
inductive SpecOp where
  | createExecution
  | startExecution
  | cancelExecution
  | getExecutionStatusState
  | listPendingInteractions
  | respondToInteractionOp
  | retrieveStepHistory
deriving DecidableEq, Repr

/-- The executionsApi member corresponding to each exposed operation. -/
def opFunctionName : SpecOp → String
  | SpecOp.createExecution => "create"
  | SpecOp.startExecution => "start"
  | SpecOp.cancelExecution => "cancel"
  | SpecOp.getExecutionStatusState => "getStatus"
  | SpecOp.listPendingInteractions => "getInteractions"
  | SpecOp.respondToInteractionOp => "respondToInteraction"
  | SpecOp.retrieveStepHistory => "getLogs"

/-- A request whose URL lies under the /api/v1/executions route. -/
def underExecutions (r : Request) : Prop :=
  ∃ rest, r.url = "/api/v1/executions" ++ rest

/-- Rendered icon element of the Dashboard status icon helper. -/
structure IconElement where
  icon : String
  cls : String
deriving DecidableEq, Repr

namespace Dashboard

/-- getStatusIcon from Dashboard.jsx: a switch over the execution status. -/
def getStatusIcon (status : String) : IconElement :=
  if status = "completed" then
    { icon := "CheckCircleIcon", cls := "h-5 w-5 text-green-500" }
  else if status = "failed" then
    { icon := "ExclamationTriangleIcon", cls := "h-5 w-5 text-red-500" }
  else if status = "running" then
    { icon := "ClockIcon", cls := "h-5 w-5 text-blue-500" }
  else
    { icon := "ClockIcon", cls := "h-5 w-5 text-gray-500" }

/-- getStatusBadge from Dashboard.jsx: a switch over the execution status. -/
def getStatusBadge (status : String) : String :=
  let baseClasses := "inline-flex items-center px-2.5 py-0.5 rounded-full text-xs font-medium"
  if status = "completed" then baseClasses ++ " status-completed"
  else if status = "failed" then baseClasses ++ " status-failed"
  else if status = "running" then baseClasses ++ " status-running"
  else if status = "paused" then baseClasses ++ " status-paused"
  else baseClasses ++ " status-draft"

/-- The dashboard statistics assembled by fetchDashboardData via setStats. -/
structure Stats where
  workflows : Nat
  executions : Nat
  agents : Nat
  tools : Nat
deriving DecidableEq, Repr

/-- setStats in fetchDashboardData: each list statistic is the length of the
corresponding response data array, and tools comes from the count field. -/
def computeStats (workflowsData executionsData agentsData : List JVal)
    (toolsCount : Nat) : Stats :=
  { workflows := workflowsData.length
    executions := executionsData.length
    agents := agentsData.length
    tools := toolsCount }

/-- The workflows request issued by fetchDashboardData. -/
def workflowsRequest : Request := workflowsApi.getAll [("limit", JVal.num 1)]

/-- The executions request issued by fetchDashboardData. -/
def executionsRequest : Request := executionsApi.getAll [("limit", JVal.num 10)]

/-- The agents request issued by fetchDashboardData. -/
def agentsRequest : Request := agentsApi.getAll [("limit", JVal.num 1)]

/-- JavaScript Array.prototype.slice with a start and stop index. -/
def jsSlice (start stop : Nat) (l : List JVal) : List JVal :=
  (l.drop start).take (stop - start)

/-- setRecentExecutions(executionsRes.data.slice(0, 5)) in fetchDashboardData. -/
def recentExecutionsOf (executionsData : List JVal) : List JVal :=
  jsSlice 0 5 executionsData

end Dashboard

/-- The execution status values the specification lists as surfaced
externally. -/
def surfacedStatuses : List String :=
  ["pending", "running", "paused", "completed", "failed", "cancelled"]

/-- A workflow row as the Workflows page displays it. -/
structure Workflow where
  id : String
  name : String
  status : String
deriving DecidableEq, Repr

namespace Workflows

/-- getStatusBadge from the Workflows page: a switch over the workflow
lifecycle status. -/
def getStatusBadge (status : String) : String :=
  let baseClasses := "inline-flex items-center px-2.5 py-0.5 rounded-full text-xs font-medium"
  if status = "active" then baseClasses ++ " bg-green-100 text-green-800"
  else if status = "draft" then baseClasses ++ " bg-gray-100 text-gray-800"
  else if status = "paused" then baseClasses ++ " bg-yellow-100 text-yellow-800"
  else if status = "archived" then baseClasses ++ " bg-red-100 text-red-800"
  else baseClasses ++ " bg-gray-100 text-gray-800"

/-- handleDelete from the Workflows page: when the user confirms and the
delete request succeeds, setWorkflows keeps exactly the entries whose id
differs from the deleted id; when the confirm dialog is declined or the
request fails, the workflows state is left as it was. -/
def handleDelete (confirmed requestSucceeded : Bool) (workflows : List Workflow)
    (id : String) : List Workflow :=
  if confirmed then
    if requestSucceeded then workflows.filter (fun w => w.id != id) else workflows
  else workflows

end Workflows

/-!
Part 2: the execution engine, checkpoint store and interaction broker.
The server implementation files of this repository are not in the snapshot
(only the server README, the API routes it lists, and the client callers
are), so the definitions below are modelled from the specification text of
sections 3, 4.2, 4.5 and 4.6.
-/

/-- Modelled from the spec: the Execution status values of the data model,
pending, running, paused, completed, failed, cancelled. -/
inductive ExecStatus where
  | pending
  | running
  | paused
  | completed
  | failed
  | cancelled
deriving DecidableEq, Repr

/-- Accumulated execution state: a key-value store. -/
abbrev StateMap := List (String × String)

/-- Modelled from the spec: setting one key of the accumulated state,
overwriting any earlier binding of that key. -/
def setKey (s : StateMap) (k v : String) : StateMap :=
  s.filter (fun p => p.1 != k) ++ [(k, v)]

/-- Modelled from the spec: merging a state delta into execution state,
later keys overwriting earlier ones. -/
def mergeDelta (base delta : StateMap) : StateMap :=
  delta.foldl (fun acc kv => setKey acc kv.1 kv.2) base

/-- Modelled from the spec: a Checkpoint record with its sequence number,
the node just completed and the full state snapshot. -/
structure Checkpoint where
  seq : Nat
  nodeId : String
  snapshot : StateMap
deriving DecidableEq, Repr

/-- Modelled from the spec: Interaction status values. -/
inductive InteractionStatus where
  | pending
  | responded
  | timedOut
deriving DecidableEq, Repr

/-- Modelled from the spec: an Interaction record of a human pause. -/
structure Interaction where
  id : Nat
  nodeId : String
  prompt : String
  status : InteractionStatus
  response : Option StateMap
deriving DecidableEq, Repr

/-- Modelled from the spec: the NodeResult a handler returns, with an
optional next node, a state delta and an optional interrupt request. -/
structure NodeResult where
  nextNodeId : Option String
  stateDelta : StateMap
  interruptRequest : Option String

/-- A node handler: from the current node id and the accumulated state to a
NodeResult. -/
abbrev Handler := String → StateMap → NodeResult

/-- Modelled from the spec: an Execution together with the checkpoint log
and interaction records it owns exclusively. -/
structure Exec where
  currentNode : String
  status : ExecStatus
  state : StateMap
  checkpoints : List Checkpoint
  interactions : List Interaction
  nextInteractionId : Nat
deriving DecidableEq, Repr

/-- Sequence number of the last committed checkpoint, zero when the log is
empty. -/
def prevSeq (e : Exec) : Nat :=
  (e.checkpoints.getLast?.map Checkpoint.seq).getD 0

/-- Observable engine events, in the order the engine emits them: a step
begins, its checkpoint is committed, the execution status transitions.
Each event carries the sequence number of the step it belongs to. -/
inductive Event where
  | stepBegin (seq : Nat)
  | checkpointCommit (seq : Nat)
  | statusTransition (seq : Nat) (dst : ExecStatus)
deriving DecidableEq, Repr

/-- Sequence number carried by an event. -/
def seqOf : Event → Nat
  | Event.stepBegin n => n
  | Event.checkpointCommit n => n
  | Event.statusTransition n _ => n

/-- Modelled from the spec: one step of the engine step protocol of section
4.2.  The handler is invoked, the state delta merged, a Checkpoint with
sequence previous plus one is committed before any status transition, then
an interrupt request creates a pending Interaction and pauses, an absent
next node completes, and otherwise the engine moves to the next node. -/
def stepOnce (h : Handler) (e : Exec) : List Event × Exec :=
  if e.status = ExecStatus.running then
    let res := h e.currentNode e.state
    let seq := prevSeq e + 1
    let newState := mergeDelta e.state res.stateDelta
    let e1 : Exec :=
      { e with
          state := newState
          checkpoints :=
            e.checkpoints ++ [{ seq := seq, nodeId := e.currentNode, snapshot := newState }] }
    match res.interruptRequest with
    | some prompt =>
        ([Event.stepBegin seq, Event.checkpointCommit seq,
          Event.statusTransition seq ExecStatus.paused],
          { e1 with
              status := ExecStatus.paused
              interactions :=
                e1.interactions ++
                  [{ id := e.nextInteractionId, nodeId := e.currentNode, prompt := prompt,
                     status := InteractionStatus.pending, response := none }]
              nextInteractionId := e.nextInteractionId + 1 })
    | none =>
        match res.nextNodeId with
        | none =>
            ([Event.stepBegin seq, Event.checkpointCommit seq,
              Event.statusTransition seq ExecStatus.completed],
              { e1 with status := ExecStatus.completed })
        | some nid =>
            ([Event.stepBegin seq, Event.checkpointCommit seq],
              { e1 with currentNode := nid })
  else ([], e)

/-- Modelled from the spec: the engine step loop, driven with explicit
fuel; it keeps stepping while the execution is running and returns the
emitted event trace together with the final execution. -/
def run (h : Handler) : Nat → Exec → List Event × Exec
  | 0, e => ([], e)
  | Nat.succ fuel, e =>
    if e.status = ExecStatus.running then
      let step := stepOnce h e
      let rest := run h fuel step.2
      (step.1 ++ rest.1, rest.2)
    else ([], e)

/-- Modelled from the spec: an explicit cancellation request transitions a
running or paused execution to cancelled, preserving the state as of the
last checkpoint and writing no new checkpoint. -/
def cancelExecution (e : Exec) : Exec :=
  if e.status = ExecStatus.running ∨ e.status = ExecStatus.paused then
    { e with status := ExecStatus.cancelled }
  else e

/-- Error results of the respond operation of the interaction broker. -/
inductive RespondError where
  | conflict
  | notFound
deriving DecidableEq, Repr

/-- Modelled from the spec: respond(execution_id, interaction_id, payload)
of the interaction broker, given here the execution record the id refers
to.  The call fails with InteractionConflictError when the interaction is
already responded (more generally, no longer pending) or the execution is
not paused, leaving the execution unchanged; otherwise it marks the
Interaction responded, merges the payload into execution state, and
triggers the engine to resume stepping. -/
def respond (e : Exec) (iid : Nat) (payload : StateMap) :
    Option RespondError × Exec :=
  match e.interactions.find? (fun i => i.id == iid) with
  | none => (some RespondError.notFound, e)
  | some it =>
      if it.status ≠ InteractionStatus.pending ∨ e.status ≠ ExecStatus.paused then
        (some RespondError.conflict, e)
      else
        (none,
          { e with
              interactions :=
                e.interactions.map (fun i =>
                  if i.id == iid then
                    { i with status := InteractionStatus.responded, response := some payload }
                  else i)
              state := mergeDelta e.state payload
              status := ExecStatus.running })

/-- Number of pending interactions of an execution. -/
def pendingCount (e : Exec) : Nat :=
  e.interactions.countP (fun i => i.status == InteractionStatus.pending)

/-- Broker well-formedness: at most one pending Interaction per execution,
and none while the engine is actively running a step. -/
def brokerWF (e : Exec) : Prop :=
  pendingCount e ≤ 1 ∧ (e.status = ExecStatus.running → pendingCount e = 0)

instance (e : Exec) : Decidable (brokerWF e) := by
  unfold brokerWF
  infer_instance

/-- Sequence numbers of the committed checkpoints in a trace, in order. -/
def commitSeqs (tr : List Event) : List Nat :=
  tr.filterMap (fun ev =>
    match ev with
    | Event.checkpointCommit n => some n
    | _ => none)

/-- Consecutive sequence numbers starting at s. -/
def seqsFrom (s : Nat) : Nat → List Nat
  | 0 => []
  | Nat.succ k => s :: seqsFrom (s + 1) k

/-- Temporal precedence in a trace: every occurrence of event b is preceded
somewhere earlier in the trace by an occurrence of event a. -/
def precededBy (a b : Event) (tr : List Event) : Prop :=
  ∀ l r, tr = l ++ b :: r → a ∈ l

/-- Sample workflow list used to instantiate general theorems. -/
def wsSample : List Workflow :=
  [{ id := "w1", name := "A", status := "active" },
   { id := "w2", name := "B", status := "draft" },
   { id := "w3", name := "C", status := "paused" }]

/-- Sample execution data list used to instantiate general theorems. -/
def sampleData : List JVal := [JVal.nul, JVal.num 3, JVal.str "x"]

/-- Sample handler used to instantiate engine theorems: the start node
hands over to a human node, which raises an interrupt request. -/
def sampleHandler : Handler := fun node _ =>
  if node = "start" then
    { nextNodeId := some "human", stateDelta := [("category", "urgent")], interruptRequest := none }
  else
    { nextNodeId := some "end", stateDelta := [], interruptRequest := some "approve?" }

/-- Sample running execution with an empty checkpoint log. -/
def sampleExec : Exec :=
  { currentNode := "start", status := ExecStatus.running, state := [],
    checkpoints := [], interactions := [], nextInteractionId := 0 }

/-- Sample paused execution owning one pending interaction. -/
def samplePaused : Exec :=
  { currentNode := "human", status := ExecStatus.paused, state := [("category", "urgent")],
    checkpoints := [{ seq := 1, nodeId := "start", snapshot := [("category", "urgent")] },
                    { seq := 2, nodeId := "human", snapshot := [("category", "urgent")] }],
    interactions := [{ id := 0, nodeId := "human", prompt := "approve?",
                       status := InteractionStatus.pending, response := none }],
    nextInteractionId := 1 }

/-- Sample paused execution whose single interaction is already responded. -/
def sampleResponded : Exec :=
  { samplePaused with
      interactions := [{ id := 0, nodeId := "human", prompt := "approve?",
                         status := InteractionStatus.responded,
                         response := some [("approved", "true")] }] }

/-- Helper: a path of the form /executions/\x7bid\x7d... prefixed with the
base URL lies under /api/v1/executions. -/
theorem api_exec_path (id tail : String) :
    baseURL ++ ("/executions/" ++ id ++ tail) =
      "/api/v1/executions" ++ ("/" ++ id ++ tail) := rfl

/-- Claim C4: each of the seven execution-level operations of the exposed
interface corresponds to exactly one request function of the executionsApi
module, distinct operations to distinct functions, and every one of those
functions issues its request to a path under /api/v1/executions. -/
theorem c4_executions_api_covers_spec_ops :
    (∀ op : SpecOp, executionsApiNames.count (opFunctionName op) = 1)
  ∧ (∀ op op' : SpecOp, opFunctionName op = opFunctionName op' → op = op')
  ∧ (∀ d, underExecutions (executionsApi.create d))
  ∧ (∀ id, underExecutions (executionsApi.start id))
  ∧ (∀ id, underExecutions (executionsApi.cancel id))
  ∧ (∀ id, underExecutions (executionsApi.getStatus id))
  ∧ (∀ id, underExecutions (executionsApi.getInteractions id))
  ∧ (∀ eid iid p, underExecutions (executionsApi.respondToInteraction eid iid p))
  ∧ (∀ id, underExecutions (executionsApi.getLogs id)) := by
  refine ⟨?_, ?_, ?_, ?_, ?_, ?_, ?_, ?_, ?_⟩
  · intro op; cases op <;> decide
  · intro op op'; cases op <;> cases op' <;> decide
  · intro d; exact ⟨"/", rfl⟩
  · intro id; exact ⟨"/" ++ id ++ "/start", api_exec_path id "/start"⟩
  · intro id; exact ⟨"/" ++ id ++ "/cancel", api_exec_path id "/cancel"⟩
  · intro id; exact ⟨"/" ++ id ++ "/status", api_exec_path id "/status"⟩
  · intro id; exact ⟨"/" ++ id ++ "/interactions", api_exec_path id "/interactions"⟩
  · intro eid iid p
    exact ⟨"/" ++ eid ++ "/interactions/" ++ iid ++ "/respond", rfl⟩
  · intro id; exact ⟨"/" ++ id ++ "/logs", api_exec_path id "/logs"⟩

/-- Closed witness for claim C4, exercising the correspondence at concrete
inputs. -/
theorem c4_witness :
    opFunctionName SpecOp.cancelExecution = opFunctionName SpecOp.cancelExecution
  ∧ SpecOp.cancelExecution = SpecOp.cancelExecution
  ∧ underExecutions (executionsApi.cancel "e42") :=
  ⟨rfl, c4_executions_api_covers_spec_ops.2.1 SpecOp.cancelExecution SpecOp.cancelExecution rfl,
    c4_executions_api_covers_spec_ops.2.2.2.2.1 "e42"⟩

/-- Claim C5: respondToInteraction issues exactly one POST request, to the
path /api/v1/executions/\x7beid\x7d/interactions/\x7biid\x7d/respond, with
request body wrapping the payload in a response field. -/
theorem c5_respond_request (executionId interactionId : String) (payload : JVal) :
    executionsApi.respondToInteraction executionId interactionId payload =
      { method := Method.post
        url := "/api/v1/executions/" ++ executionId ++ "/interactions/"
                 ++ interactionId ++ "/respond"
        params := []
        body := some (JVal.obj [("response", payload)]) } := rfl

/-- Claim C6: the Workflows page status badge gives pairwise distinct
classes for active, paused and archived, and any status outside the four
lifecycle values gets the same class as draft. -/
theorem c6_workflows_status_badge (s : String)
    (hs : s ∉ ["draft", "active", "paused", "archived"]) :
    (Workflows.getStatusBadge "active" ≠ Workflows.getStatusBadge "paused"
      ∧ Workflows.getStatusBadge "active" ≠ Workflows.getStatusBadge "archived"
      ∧ Workflows.getStatusBadge "paused" ≠ Workflows.getStatusBadge "archived")
  ∧ Workflows.getStatusBadge s = Workflows.getStatusBadge "draft" := by
  simp only [List.mem_cons, List.mem_singleton, not_or] at hs
  obtain ⟨hd, ha, hp, har, -⟩ := hs
  refine ⟨by refine ⟨by decide, by decide, by decide⟩, ?_⟩
  unfold Workflows.getStatusBadge
  rw [if_neg ha, if_neg hd, if_neg hp, if_neg har]
  decide

/-- Closed witness for claim C6 at a status outside the lifecycle set. -/
theorem c6_witness :
    "unknown" ∉ ["draft", "active", "paused", "archived"]
  ∧ ((Workflows.getStatusBadge "active" ≠ Workflows.getStatusBadge "paused"
      ∧ Workflows.getStatusBadge "active" ≠ Workflows.getStatusBadge "archived"
      ∧ Workflows.getStatusBadge "paused" ≠ Workflows.getStatusBadge "archived")
    ∧ Workflows.getStatusBadge "unknown" = Workflows.getStatusBadge "draft") :=
  ⟨by decide, c6_workflows_status_badge "unknown" (by decide)⟩

/-- Claim C7: the Dashboard status icon and badge helpers are total over
the six externally surfaced execution status values, returning a non-empty
icon, icon class and badge class for each. -/
theorem c7_dashboard_status_helpers_total (s : String) (hs : s ∈ surfacedStatuses) :
    (Dashboard.getStatusIcon s).icon ≠ ""
  ∧ (Dashboard.getStatusIcon s).cls ≠ ""
  ∧ Dashboard.getStatusBadge s ≠ "" := by
  fin_cases hs <;> exact ⟨by decide, by decide, by decide⟩

/-- Closed witness for claim C7 at the status pending. -/
theorem c7_witness :
    "pending" ∈ surfacedStatuses
  ∧ ((Dashboard.getStatusIcon "pending").icon ≠ ""
      ∧ (Dashboard.getStatusIcon "pending").cls ≠ ""
      ∧ Dashboard.getStatusBadge "pending" ≠ "") :=
  ⟨by decide, c7_dashboard_status_helpers_total "pending" (by decide)⟩

/-- Claim C8: the Dashboard issues its workflows and agents statistics
requests with the parameter limit set to one, the displayed counts are the
lengths of the returned lists, and when the server honours the limit each
of the two counts is at most one. -/
theorem c8_dashboard_limit_counts (ws as : List JVal)
    (hw : ws.length ≤ 1) (ha : as.length ≤ 1) :
    Dashboard.workflowsRequest.params = [("limit", JVal.num 1)]
  ∧ Dashboard.agentsRequest.params = [("limit", JVal.num 1)]
  ∧ (∀ es tc, (Dashboard.computeStats ws es as tc).workflows = ws.length
        ∧ (Dashboard.computeStats ws es as tc).agents = as.length)
  ∧ (∀ es tc, (Dashboard.computeStats ws es as tc).workflows ≤ 1
        ∧ (Dashboard.computeStats ws es as tc).agents ≤ 1) :=
  ⟨rfl, rfl, fun _ _ => ⟨rfl, rfl⟩, fun _ _ => ⟨hw, ha⟩⟩

/-- Closed witness for claim C8 with singleton response lists. -/
theorem c8_witness :
    ([JVal.nul] : List JVal).length ≤ 1
  ∧ (Dashboard.computeStats [JVal.nul] sampleData [JVal.nul] 4).workflows ≤ 1
  ∧ (Dashboard.computeStats [JVal.nul] sampleData [JVal.nul] 4).agents ≤ 1 :=
  ⟨by decide,
    (c8_dashboard_limit_counts [JVal.nul] [JVal.nul] (by decide) (by decide)).2.2.2 sampleData 4⟩

/-- Claim C9: the recent executions shown by the Dashboard are exactly the
first five (or fewer) elements of the executions response, in their
original order, hence at most five are ever displayed. -/
theorem c9_recent_executions_take (l : List JVal) :
    Dashboard.recentExecutionsOf l = l.take 5
  ∧ (Dashboard.recentExecutionsOf l).length = min 5 l.length
  ∧ (Dashboard.recentExecutionsOf l).length ≤ 5
  ∧ (∀ i, i < 5 → (Dashboard.recentExecutionsOf l)[i]? = l[i]?) := by
  have h : Dashboard.recentExecutionsOf l = l.take 5 := rfl
  refine ⟨h, ?_, ?_, ?_⟩
  · rw [h, List.length_take]
  · rw [h, List.length_take]; exact min_le_left 5 l.length
  · intro i hi
    rw [h]
    exact List.getElem?_take_of_lt hi

/-- Closed witness for claim C9 on a concrete executions list. -/
theorem c9_witness :
    (0 : Nat) < 5
  ∧ Dashboard.recentExecutionsOf sampleData = sampleData.take 5
  ∧ (Dashboard.recentExecutionsOf sampleData)[0]? = sampleData[0]? :=
  ⟨by decide, (c9_recent_executions_take sampleData).1,
    (c9_recent_executions_take sampleData).2.2.2 0 (by decide)⟩

/-- Claim C10: after a confirmed, successful delete of id X the workflows
state is the previous list with exactly the entries of id X removed, the
remaining entries unchanged in their relative order; a failed or declined
delete leaves the state unchanged. -/
theorem c10_handle_delete (ws : List Workflow) (x : String) :
    (∀ w, w ∈ Workflows.handleDelete true true ws x → w.id ≠ x)
  ∧ (∀ w, w ∈ ws → w.id ≠ x → w ∈ Workflows.handleDelete true true ws x)
  ∧ List.Sublist (Workflows.handleDelete true true ws x) ws
  ∧ (∀ w : Workflow, w.id ≠ x →
        (Workflows.handleDelete true true ws x).count w = ws.count w)
  ∧ Workflows.handleDelete true false ws x = ws
  ∧ (∀ b, Workflows.handleDelete false b ws x = ws) := by
  refine ⟨?_, ?_, ?_, ?_, rfl, fun b => rfl⟩
  · intro w hw
    rw [Workflows.handleDelete, if_pos rfl, if_pos rfl, List.mem_filter] at hw
    simpa using hw.2
  · intro w hw hneq
    rw [Workflows.handleDelete, if_pos rfl, if_pos rfl, List.mem_filter]
    exact ⟨hw, by simpa using hneq⟩
  · rw [Workflows.handleDelete, if_pos rfl, if_pos rfl]
    exact List.filter_sublist ws
  · intro w hw
    rw [Workflows.handleDelete, if_pos rfl, if_pos rfl]
    exact List.count_filter (by simpa using hw)

/-- Closed witness for claim C10 on a concrete workflows list. -/
theorem c10_witness :
    ({ id := "w1", name := "A", status := "active" } : Workflow) ∈ wsSample
  ∧ ({ id := "w1", name := "A", status := "active" } : Workflow).id ≠ "w2"
  ∧ ({ id := "w1", name := "A", status := "active" } : Workflow)
      ∈ Workflows.handleDelete true true wsSample "w2"
  ∧ Workflows.handleDelete true false wsSample "w2" = wsSample :=
  ⟨by decide, by decide,
    (c10_handle_delete wsSample "w2").2.1 _ (by decide) (by decide),
    (c10_handle_delete wsSample "w2").2.2.2.2.1⟩

/-- A non-running execution takes no step. -/
theorem stepOnce_not_running (h : Handler) (e : Exec)
    (he : e.status ≠ ExecStatus.running) : stepOnce h e = ([], e) := by
  unfold stepOnce
  rw [if_neg he]

/-- Shape of the trace block of one engine step: the step-begin event, then
the checkpoint commit with sequence previous plus one, then only status
transitions of that same step. -/
theorem stepOnce_fst_shape (h : Handler) (e : Exec) (he : e.status = ExecStatus.running) :
    ∃ tail,
      (stepOnce h e).1 =
        Event.stepBegin (prevSeq e + 1) :: Event.checkpointCommit (prevSeq e + 1) :: tail
      ∧ (∀ ev ∈ tail, ∃ st, ev = Event.statusTransition (prevSeq e + 1) st) := by
  rcases hI : (h e.currentNode e.state).interruptRequest with _ | prompt
  · rcases hN : (h e.currentNode e.state).nextNodeId with _ | nid
    · refine ⟨[Event.statusTransition (prevSeq e + 1) ExecStatus.completed], ?_, ?_⟩
      · simp only [stepOnce, if_pos he, hI, hN]
      · intro ev hev
        simp only [List.mem_singleton] at hev
        exact ⟨ExecStatus.completed, hev⟩
    · refine ⟨[], ?_, ?_⟩
      · simp only [stepOnce, if_pos he, hI, hN]
      · intro ev hev
        simp at hev
  · refine ⟨[Event.statusTransition (prevSeq e + 1) ExecStatus.paused], ?_, ?_⟩
    · simp only [stepOnce, if_pos he, hI]
    · intro ev hev
      simp only [List.mem_singleton] at hev
      exact ⟨ExecStatus.paused, hev⟩

/-- One engine step advances the last committed sequence number by one. -/
theorem stepOnce_prevSeq (h : Handler) (e : Exec) (he : e.status = ExecStatus.running) :
    prevSeq (stepOnce h e).2 = prevSeq e + 1 := by
  rcases hI : (h e.currentNode e.state).interruptRequest with _ | prompt
  · rcases hN : (h e.currentNode e.state).nextNodeId with _ | nid
    · simp only [stepOnce, if_pos he, hI, hN]
      simp [prevSeq, List.getLast?_concat]
    · simp only [stepOnce, if_pos he, hI, hN]
      simp [prevSeq, List.getLast?_concat]
  · simp only [stepOnce, if_pos he, hI]
    simp [prevSeq, List.getLast?_concat]

/-- The step loop does nothing on a non-running execution. -/
theorem run_not_running (h : Handler) (fuel : Nat) (e : Exec)
    (he : e.status ≠ ExecStatus.running) : run h fuel e = ([], e) := by
  cases fuel with
  | zero => rfl
  | succ fuel =>
      unfold run
      rw [if_neg he]

/-- Unfolding of the step loop on a running execution. -/
theorem run_succ_running (h : Handler) (fuel : Nat) (e : Exec)
    (he : e.status = ExecStatus.running) :
    run h (fuel + 1) e =
      ((stepOnce h e).1 ++ (run h fuel (stepOnce h e).2).1,
        (run h fuel (stepOnce h e).2).2) := by
  rw [run, if_pos he]

/-- Every event of a run carries a sequence number above the sequence of
the last checkpoint committed before the run started. -/
theorem seqOf_mem_run (h : Handler) :
    ∀ fuel e ev, ev ∈ (run h fuel e).1 → prevSeq e < seqOf ev := by
  intro fuel
  induction fuel with
  | zero => intro e ev hev; simp [run] at hev
  | succ fuel ih =>
      intro e ev hev
      by_cases he : e.status = ExecStatus.running
      · rw [run_succ_running h fuel e he] at hev
        simp only [List.mem_append] at hev
        rcases hev with hev | hev
        · obtain ⟨tail, heq, htail⟩ := stepOnce_fst_shape h e he
          rw [heq] at hev
          simp only [List.mem_cons] at hev
          rcases hev with rfl | rfl | hev
          · simp [seqOf]
          · simp [seqOf]
          · obtain ⟨st, rfl⟩ := htail ev hev
            simp [seqOf]
        · have := ih (stepOnce h e).2 ev hev
          rw [stepOnce_prevSeq h e he] at this
          omega
      · rw [run_not_running h (fuel + 1) e he] at hev
        simp at hev

/-- Commit sequences distribute over trace concatenation. -/
theorem commitSeqs_append (a b : List Event) :
    commitSeqs (a ++ b) = commitSeqs a ++ commitSeqs b := by
  simp [commitSeqs, List.filterMap_append]

/-- A trace of status transitions only contains no commits. -/
theorem commitSeqs_of_transitions (l : List Event) (s : Nat)
    (hl : ∀ ev ∈ l, ∃ st, ev = Event.statusTransition s st) :
    commitSeqs l = [] := by
  induction l with
  | nil => rfl
  | cons ev l ih =>
      obtain ⟨st, rfl⟩ := hl ev (List.mem_cons_self ev l)
      simp only [commitSeqs, List.filterMap_cons]
      exact ih (fun x hx => hl x (List.mem_cons_of_mem _ hx))

/-- The commits of a run are the consecutive sequence numbers starting
right after the last checkpoint committed before the run: every checkpoint
is committed with sequence equal to the previous sequence plus one. -/
theorem run_commitSeqs (h : Handler) :
    ∀ fuel e, ∃ k, commitSeqs (run h fuel e).1 = seqsFrom (prevSeq e + 1) k := by
  intro fuel
  induction fuel with
  | zero => intro e; exact ⟨0, rfl⟩
  | succ fuel ih =>
      intro e
      by_cases he : e.status = ExecStatus.running
      · rw [run_succ_running h fuel e he]
        obtain ⟨tail, heq, htail⟩ := stepOnce_fst_shape h e he
        obtain ⟨k, hk⟩ := ih (stepOnce h e).2
        refine ⟨k + 1, ?_⟩
        rw [commitSeqs_append, heq]
        simp only [commitSeqs, List.filterMap_cons]
        rw [show (List.filterMap _ tail : List Nat) = commitSeqs tail from rfl,
          commitSeqs_of_transitions tail (prevSeq e + 1) htail]
        rw [show (List.filterMap _ (run h fuel (stepOnce h e).2).1 : List Nat) =
              commitSeqs (run h fuel (stepOnce h e).2).1 from rfl, hk,
          stepOnce_prevSeq h e he]
        rfl
      · rw [run_not_running h (fuel + 1) e he]
        exact ⟨0, rfl⟩

/-- Splitting a concatenation at a distinguished element: the element lies
either in the first part or in the second, with the matching contexts. -/
theorem split_at_elem {α : Type} (xs ys l r : List α) (b : α)
    (heq : xs ++ ys = l ++ b :: r) :
    (∃ w, xs = l ++ b :: w ∧ r = w ++ ys) ∨ (∃ w, l = xs ++ w ∧ ys = w ++ b :: r) := by
  rcases List.append_eq_append_iff.mp heq.symm with ⟨w, hxs, hbr⟩ | ⟨w, hl, hys⟩
  · cases w with
    | nil =>
        right
        refine ⟨[], ?_, ?_⟩
        · simp [hxs]
        · simpa using hbr.symm
    | cons c w =>
        left
        obtain ⟨rfl, hr⟩ : b = c ∧ r = w ++ ys := by
          simpa using hbr
        exact ⟨w, by simpa using hxs, hr⟩
  · right
    exact ⟨w, hl, hys⟩

/-- Nothing is preceded in the empty trace. -/
theorem precededBy_nil (a b : Event) : precededBy a b [] := by
  intro l r heq
  exact absurd heq.symm (List.append_ne_nil_of_right_ne_nil l (List.cons_ne_nil b r))

/-- Precedence extends to the left past a block free of the target event. -/
theorem precededBy_append_left (a b : Event) (xs ys : List Event)
    (hb : b ∉ xs) (hys : precededBy a b ys) : precededBy a b (xs ++ ys) := by
  intro l r heq
  rcases split_at_elem xs ys l r b heq with ⟨w, hxs, -⟩ | ⟨w, rfl, hys2⟩
  · exact absurd (hxs ▸ List.mem_append_right l (List.mem_cons_self b w)) hb
  · exact List.mem_append_right xs (hys w r hys2)

/-- Precedence holds on a concatenation when the source event occurs in the
first block and the target does not. -/
theorem precededBy_of_mem_left (a b : Event) (xs ys : List Event)
    (ha : a ∈ xs) (hb : b ∉ xs) : precededBy a b (xs ++ ys) := by
  intro l r heq
  rcases split_at_elem xs ys l r b heq with ⟨w, hxs, -⟩ | ⟨w, rfl, -⟩
  · exact absurd (hxs ▸ List.mem_append_right l (List.mem_cons_self b w)) hb
  · exact List.mem_append_left w ha

/-- Precedence extends to the right past a block free of the target event. -/
theorem precededBy_append_right (a b : Event) (xs ys : List Event)
    (hxs : precededBy a b xs) (hb : b ∉ ys) : precededBy a b (xs ++ ys) := by
  intro l r heq
  rcases split_at_elem xs ys l r b heq with ⟨w, hxs2, -⟩ | ⟨w, -, hys⟩
  · exact hxs l w hxs2
  · exact absurd (hys ▸ List.mem_append_right w (List.mem_cons_self b r)) hb

/-- An absent target event is trivially preceded. -/
theorem precededBy_of_not_mem (a b : Event) (tr : List Event)
    (hb : b ∉ tr) : precededBy a b tr := by
  intro l r heq
  exact absurd (heq ▸ List.mem_append_right l (List.mem_cons_self b r)) hb

/-- All events of one step block carry the sequence number of that step. -/
theorem seqOf_mem_stepOnce (h : Handler) (e : Exec) (he : e.status = ExecStatus.running) :
    ∀ ev ∈ (stepOnce h e).1, seqOf ev = prevSeq e + 1 := by
  obtain ⟨tail, heq, htail⟩ := stepOnce_fst_shape h e he
  rw [heq]
  intro ev hev
  rcases List.mem_cons.mp hev with rfl | hev
  · rfl
  · rcases List.mem_cons.mp hev with rfl | hev
    · rfl
    · obtain ⟨st, rfl⟩ := htail ev hev
      rfl

/-- The checkpoint commit of step n happens before any later step begins:
in every run trace, every occurrence of the begin event of step n plus one
is preceded by the commit event of step n. -/
theorem run_commit_precedes_begin (h : Handler) :
    ∀ fuel e n, prevSeq e < n →
      precededBy (Event.checkpointCommit n) (Event.stepBegin (n + 1)) (run h fuel e).1 := by
  intro fuel
  induction fuel with
  | zero => intro e n _; exact precededBy_nil _ _
  | succ fuel ih =>
      intro e n hn
      by_cases he : e.status = ExecStatus.running
      · rw [run_succ_running h fuel e he]
        by_cases hc : n = prevSeq e + 1
        · subst hc
          obtain ⟨tail, heq, htail⟩ := stepOnce_fst_shape h e he
          apply precededBy_of_mem_left
          · rw [heq]
            exact List.mem_cons_of_mem _ (List.mem_cons_self _ _)
          · intro hmem
            have := seqOf_mem_stepOnce h e he _ hmem
            simp [seqOf] at this
        · have hgt : prevSeq e + 1 < n := by omega
          apply precededBy_append_left
          · intro hmem
            have := seqOf_mem_stepOnce h e he _ hmem
            simp [seqOf] at this
            omega
          · apply ih
            rw [stepOnce_prevSeq h e he]
            omega
      · rw [run_not_running h (fuel + 1) e he]
        exact precededBy_nil _ _

/-- The checkpoint commit of step n happens before any status transition of
step n in every run trace. -/
theorem run_commit_precedes_transition (h : Handler) :
    ∀ fuel e n st,
      precededBy (Event.checkpointCommit n) (Event.statusTransition n st) (run h fuel e).1 := by
  intro fuel
  induction fuel with
  | zero => intro e n st; exact precededBy_nil _ _
  | succ fuel ih =>
      intro e n st
      by_cases he : e.status = ExecStatus.running
      · rw [run_succ_running h fuel e he]
        by_cases hc : n = prevSeq e + 1
        · subst hc
          obtain ⟨tail, heq, htail⟩ := stepOnce_fst_shape h e he
          apply precededBy_append_right
          · rw [heq]
            show precededBy _ _
              ([Event.stepBegin (prevSeq e + 1), Event.checkpointCommit (prevSeq e + 1)] ++ tail)
            apply precededBy_of_mem_left
            · exact List.mem_cons_of_mem _ (List.mem_cons_self _ _)
            · intro hmem
              simp at hmem
          · intro hmem
            have := seqOf_mem_run h fuel (stepOnce h e).2 _ hmem
            rw [stepOnce_prevSeq h e he] at this
            simp [seqOf] at this
        · apply precededBy_append_left
          · intro hmem
            have := seqOf_mem_stepOnce h e he _ hmem
            simp [seqOf] at this
            exact hc this
          · exact ih (stepOnce h e).2 n st
      · rw [run_not_running h (fuel + 1) e he]
        exact precededBy_nil _ _

/-- No checkpoint is ever committed twice in a run trace: each commit event
occurs at most once. -/
theorem run_count_commit (h : Handler) :
    ∀ fuel e n, (run h fuel e).1.count (Event.checkpointCommit n) ≤ 1 := by
  intro fuel
  induction fuel with
  | zero => intro e n; simp [run]
  | succ fuel ih =>
      intro e n
      by_cases he : e.status = ExecStatus.running
      · rw [run_succ_running h fuel e he, List.count_append]
        by_cases hc : n = prevSeq e + 1
        · subst hc
          have hrest : (run h fuel (stepOnce h e).2).1.count
              (Event.checkpointCommit (prevSeq e + 1)) = 0 := by
            apply List.count_eq_zero_of_not_mem
            intro hmem
            have := seqOf_mem_run h fuel (stepOnce h e).2 _ hmem
            rw [stepOnce_prevSeq h e he] at this
            simp [seqOf] at this
          have hblock : (stepOnce h e).1.count (Event.checkpointCommit (prevSeq e + 1)) = 1 := by
            obtain ⟨tail, heq, htail⟩ := stepOnce_fst_shape h e he
            rw [heq]
            have htailcount : tail.count (Event.checkpointCommit (prevSeq e + 1)) = 0 := by
              apply List.count_eq_zero_of_not_mem
              intro hmem
              obtain ⟨st, hst⟩ := htail _ hmem
              exact absurd hst (by simp)
            simp [List.count_cons, htailcount]
          omega
        · have hblock : (stepOnce h e).1.count (Event.checkpointCommit n) = 0 := by
            apply List.count_eq_zero_of_not_mem
            intro hmem
            have := seqOf_mem_stepOnce h e he _ hmem
            simp [seqOf] at this
            exact hc this
          have := ih (stepOnce h e).2 n
          omega
      · rw [run_not_running h (fuel + 1) e he]
        simp

/-- Claim C1: in every run of the engine the committed checkpoint sequences
are consecutive, each equal to the previous sequence plus one; the commit
of step n precedes every begin of step n plus one and every status
transition of step n; and no commit is ever replayed. -/
theorem c1_checkpoint_ordering (h : Handler) (fuel : Nat) (e : Exec) (n : Nat)
    (hn : prevSeq e < n) :
    (∃ k, commitSeqs (run h fuel e).1 = seqsFrom (prevSeq e + 1) k)
  ∧ precededBy (Event.checkpointCommit n) (Event.stepBegin (n + 1)) (run h fuel e).1
  ∧ (∀ m st,
      precededBy (Event.checkpointCommit m) (Event.statusTransition m st) (run h fuel e).1)
  ∧ (∀ m, (run h fuel e).1.count (Event.checkpointCommit m) ≤ 1) :=
  ⟨run_commitSeqs h fuel e, run_commit_precedes_begin h fuel e n hn,
    fun m st => run_commit_precedes_transition h fuel e m st,
    fun m => run_count_commit h fuel e m⟩

/-- Closed witness for claim C1 on a concrete handler and execution. -/
theorem c1_witness :
    prevSeq sampleExec < 1
  ∧ ((∃ k, commitSeqs (run sampleHandler 3 sampleExec).1 = seqsFrom (prevSeq sampleExec + 1) k)
    ∧ precededBy (Event.checkpointCommit 1) (Event.stepBegin (1 + 1))
        (run sampleHandler 3 sampleExec).1
    ∧ (∀ m st, precededBy (Event.checkpointCommit m) (Event.statusTransition m st)
        (run sampleHandler 3 sampleExec).1)
    ∧ (∀ m, (run sampleHandler 3 sampleExec).1.count (Event.checkpointCommit m) ≤ 1)) :=
  ⟨by decide, c1_checkpoint_ordering sampleHandler 3 sampleExec 1 (by decide)⟩

/-- One engine step preserves broker well-formedness: it creates a pending
interaction only when pausing a previously interaction-free running
execution. -/
theorem brokerWF_stepOnce (h : Handler) (e : Exec) (hwf : brokerWF e) :
    brokerWF (stepOnce h e).2 := by
  by_cases he : e.status = ExecStatus.running
  · have hzero : pendingCount e = 0 := hwf.2 he
    rcases hI : (h e.currentNode e.state).interruptRequest with _ | prompt
    · rcases hN : (h e.currentNode e.state).nextNodeId with _ | nid
      · simp only [stepOnce, if_pos he, hI, hN]
        constructor
        · simpa [pendingCount] using hwf.1
        · intro hrun
          simp at hrun
      · simp only [stepOnce, if_pos he, hI, hN]
        constructor
        · simpa [pendingCount] using hwf.1
        · intro hrun
          simpa [pendingCount] using hzero
    · simp only [stepOnce, if_pos he, hI]
      constructor
      · simp only [pendingCount, List.countP_append]
        have : pendingCount e = 0 := hzero
        simp only [pendingCount] at this
        simp [this]
      · intro hrun
        simp at hrun
  · rw [stepOnce_not_running h e he]
    exact hwf

/-- The engine step loop preserves broker well-formedness. -/
theorem brokerWF_run (h : Handler) :
    ∀ fuel e, brokerWF e → brokerWF (run h fuel e).2 := by
  intro fuel
  induction fuel with
  | zero => intro e hwf; exact hwf
  | succ fuel ih =>
      intro e hwf
      by_cases he : e.status = ExecStatus.running
      · rw [run_succ_running h fuel e he]
        exact ih (stepOnce h e).2 (brokerWF_stepOnce h e hwf)
      · rw [run_not_running h (fuel + 1) e he]
        exact hwf

/-- Cancellation preserves broker well-formedness. -/
theorem brokerWF_cancel (e : Exec) (hwf : brokerWF e) :
    brokerWF (cancelExecution e) := by
  unfold cancelExecution
  by_cases hc : e.status = ExecStatus.running ∨ e.status = ExecStatus.paused
  · rw [if_pos hc]
    constructor
    · simpa [pendingCount] using hwf.1
    · intro hrun
      simp at hrun
  · rw [if_neg hc]
    exact hwf

/-- An execution without pending interactions is broker well-formed. -/
theorem brokerWF_of_no_pending (x : Exec) (hx : pendingCount x = 0) : brokerWF x :=
  ⟨by rw [hx]; omega, fun _ => hx⟩

/-- Under well-formedness, every pending interaction of the execution a
successful respond call acts on carries the responded id. -/
theorem pending_unique_id (e : Exec) (iid : Nat) (it : Interaction)
    (hwf : brokerWF e)
    (hf : e.interactions.find? (fun i => i.id == iid) = some it)
    (hpend : it.status = InteractionStatus.pending) :
    ∀ i ∈ e.interactions,
      (i.status == InteractionStatus.pending) = true → (i.id == iid) = true := by
  intro i hi hip
  by_contra hne
  have hit_mem : it ∈ e.interactions := List.mem_of_find?_eq_some hf
  have hit_id := List.find?_some hf
  have hfil_le :
      (e.interactions.filter (fun j => j.status == InteractionStatus.pending)).length ≤ 1 := by
    have h1 := hwf.1
    rwa [pendingCount, List.countP_eq_length_filter] at h1
  have hitf : it ∈ e.interactions.filter (fun j => j.status == InteractionStatus.pending) :=
    List.mem_filter.mpr ⟨hit_mem, by simp [hpend]⟩
  have hif : i ∈ e.interactions.filter (fun j => j.status == InteractionStatus.pending) :=
    List.mem_filter.mpr ⟨hi, hip⟩
  have hne2 : it ≠ i := by
    intro heq2
    rw [heq2] at hit_id
    exact hne hit_id
  rcases hfl : e.interactions.filter (fun j => j.status == InteractionStatus.pending)
    with _ | ⟨x, xs⟩
  · rw [hfl] at hitf
    simp at hitf
  · rw [hfl] at hitf hif hfil_le
    have hxs : xs = [] := by
      simp only [List.length_cons] at hfil_le
      exact List.length_eq_zero.mp (by omega)
    subst hxs
    simp only [List.mem_singleton] at hitf hif
    exact hne2 (hitf.trans hif.symm)

/-- The respond operation preserves broker well-formedness: a successful
response leaves no pending interaction behind. -/
theorem brokerWF_respond (e : Exec) (iid : Nat) (payload : StateMap)
    (hwf : brokerWF e) : brokerWF (respond e iid payload).2 := by
  rcases hf : e.interactions.find? (fun i => i.id == iid) with _ | it
  · simp only [respond, hf]
    exact hwf
  · simp only [respond, hf]
    by_cases hcond : it.status ≠ InteractionStatus.pending ∨ e.status ≠ ExecStatus.paused
    · rw [if_pos hcond]
      exact hwf
    · rw [if_neg hcond]
      push_neg at hcond
      obtain ⟨hpend, hpause⟩ := hcond
      apply brokerWF_of_no_pending
      simp only [pendingCount, List.countP_map]
      apply List.countP_eq_zero.mpr
      intro i hi
      simp only [Function.comp]
      by_cases hidm : (i.id == iid) = true
      · simp [hidm]
      · simp only [hidm, if_neg, Bool.if_false_right]
        intro hip
        exact hidm (pending_unique_id e iid it hwf hf hpend i hi (by simpa using hip))

/-- A respond call on an already-responded interaction, or on an execution
that is not paused, fails with the conflict error and leaves the execution
unchanged. -/
theorem respond_conflict (e : Exec) (iid : Nat) (payload : StateMap) (it : Interaction)
    (hf : e.interactions.find? (fun i => i.id == iid) = some it)
    (hcond : it.status = InteractionStatus.responded ∨ e.status ≠ ExecStatus.paused) :
    respond e iid payload = (some RespondError.conflict, e) := by
  simp only [respond, hf]
  rw [if_pos]
  rcases hcond with hcond | hcond
  · left
    rw [hcond]
    simp
  · right
    exact hcond

/-- Claim C2: broker well-formedness, carrying the invariant that at most
one pending Interaction exists per execution, is preserved by every
operation of the model, and a respond call on an already-responded
interaction or a non-paused execution fails with InteractionConflictError
leaving the execution state unchanged. -/
theorem c2_single_pending_and_conflict :
    (∀ h e, brokerWF e → brokerWF (stepOnce h e).2)
  ∧ (∀ h fuel e, brokerWF e → brokerWF (run h fuel e).2)
  ∧ (∀ e, brokerWF e → brokerWF (cancelExecution e))
  ∧ (∀ e iid payload, brokerWF e → brokerWF (respond e iid payload).2)
  ∧ (∀ e iid payload it,
      e.interactions.find? (fun i => i.id == iid) = some it →
      it.status = InteractionStatus.responded ∨ e.status ≠ ExecStatus.paused →
      respond e iid payload = (some RespondError.conflict, e)) :=
  ⟨fun h e hwf => brokerWF_stepOnce h e hwf,
    fun h fuel e hwf => brokerWF_run h fuel e hwf,
    fun e hwf => brokerWF_cancel e hwf,
    fun e iid payload hwf => brokerWF_respond e iid payload hwf,
    fun e iid payload it hf hcond => respond_conflict e iid payload it hf hcond⟩

/-- Closed witness for claim C2 on concrete executions: well-formedness is
preserved by a successful response, and a duplicate response conflicts. -/
theorem c2_witness :
    brokerWF samplePaused
  ∧ brokerWF (respond samplePaused 0 [("approved", "true")]).2
  ∧ sampleResponded.interactions.find? (fun i => i.id == 0) =
      some { id := 0, nodeId := "human", prompt := "approve?",
             status := InteractionStatus.responded,
             response := some [("approved", "true")] }
  ∧ respond sampleResponded 0 [("approved", "true")] =
      (some RespondError.conflict, sampleResponded) :=
  ⟨by decide,
    c2_single_pending_and_conflict.2.2.2.1 samplePaused 0 [("approved", "true")] (by decide),
    by decide,
    c2_single_pending_and_conflict.2.2.2.2 sampleResponded 0 [("approved", "true")]
      { id := 0, nodeId := "human", prompt := "approve?",
        status := InteractionStatus.responded, response := some [("approved", "true")] }
      (by decide) (Or.inl rfl)⟩

/-- Claim C3: cancelling a paused execution transitions it to cancelled,
writes no checkpoint at or after the cancellation, leaves the engine loop
inert, and makes every subsequent respond call on the execution fail while
leaving it unchanged. -/
theorem c3_cancel_paused (e : Exec) (hp : e.status = ExecStatus.paused) :
    (cancelExecution e).status = ExecStatus.cancelled
  ∧ (cancelExecution e).checkpoints = e.checkpoints
  ∧ (∀ h fuel, run h fuel (cancelExecution e) = ([], cancelExecution e))
  ∧ (∀ iid payload, (respond (cancelExecution e) iid payload).1.isSome = true
      ∧ (respond (cancelExecution e) iid payload).2 = cancelExecution e) := by
  have hce : cancelExecution e = { e with status := ExecStatus.cancelled } := by
    unfold cancelExecution
    rw [if_pos (Or.inr hp)]
  refine ⟨by rw [hce], by rw [hce], ?_, ?_⟩
  · intro h fuel
    apply run_not_running
    rw [hce]
    simp
  · intro iid payload
    rcases hf : (cancelExecution e).interactions.find? (fun i => i.id == iid) with _ | it
    · simp [respond, hf]
    · have hconf : respond (cancelExecution e) iid payload =
          (some RespondError.conflict, cancelExecution e) := by
        apply respond_conflict _ _ _ _ hf
        right
        rw [hce]
        simp
      rw [hconf]
      exact ⟨rfl, rfl⟩

/-- Closed witness for claim C3 on a concrete paused execution. -/
theorem c3_witness :
    samplePaused.status = ExecStatus.paused
  ∧ ((cancelExecution samplePaused).status = ExecStatus.cancelled
    ∧ (cancelExecution samplePaused).checkpoints = samplePaused.checkpoints
    ∧ (∀ h fuel, run h fuel (cancelExecution samplePaused) = ([], cancelExecution samplePaused))
    ∧ (∀ iid payload,
        (respond (cancelExecution samplePaused) iid payload).1.isSome = true
        ∧ (respond (cancelExecution samplePaused) iid payload).2
            = cancelExecution samplePaused)) :=
  ⟨rfl, c3_cancel_paused samplePaused rfl⟩
